import Mathlib

/-!
Verification development for `sys_process.h` (namespace `System`, class
`Process`): a single-child process handle communicating with the child over
two pipes.  The C++ is shallowly embedded: the handle's bookkeeping fields
(`forked_`, `child_pid_`, the four pipe file descriptors) together with the
status of the one possible OS child form an explicit state type, syscall
outcomes (`fork`, `write`, `poll`, `::read`) are supplied as parameters or
event scripts, and each member function becomes a pure Lean function on that
state.
-/

/-- Status of the (at most one) OS child process associated with a handle:
no child exists, the child runs, or it terminated but was not yet reaped. -/
inductive ChildStatus
  | noChild
  | running
  | zombie
deriving DecidableEq

/-- State of a `System::Process` handle together with the OS-side status of
its child.  `outR`, `outW`, `inR`, `inW` record whether the handle's copies of
`out_pipe_[0]`, `out_pipe_[1]`, `in_pipe_[0]`, `in_pipe_[1]` are open file
descriptors. -/
structure PState where
  forked : Bool
  childPid : Int
  outR : Bool
  outW : Bool
  inR : Bool
  inW : Bool
  child : ChildStatus
deriving DecidableEq

/-- The state right after the constructor ran: both pipes freshly created
(all four descriptors open), `forked_ = false`, `child_pid_ = 0`, no child. -/
def initState : PState :=
  { forked := false, childPid := 0, outR := true, outW := true, inR := true,
    inW := true, child := ChildStatus.noChild }

/-- Line 17: `#define MAX_TIMEOUT_MS 1000*60*5`. -/
def MAX_TIMEOUT_MS : Int := 1000 * 60 * 5

/-- Line 217 of `read`: `if (timeout_ms <= 0) timeout_ms = MAX_TIMEOUT_MS;`. -/
def normalizeTimeout (timeout_ms : Int) : Int :=
  if timeout_ms ≤ 0 then MAX_TIMEOUT_MS else timeout_ms

/-- Parent-side effect of `start` (lines 110-136, 202), given the value `p`
returned by `fork()`.  The code tests `if (process_p)`, so every nonzero
value — including the failure value `-1` — takes the parent branch, which
closes `out_pipe_[0]` and `in_pipe_[1]`, records `child_pid_ = p` and sets
`forked_ = true`.  A new OS child exists exactly when the fork succeeded
(`p > 0`). -/
def start (p : Int) (s : PState) : PState :=
  if p ≠ 0 then
    { s with outR := false, inW := false, childPid := p, forked := true,
             child := if 0 < p then ChildStatus.running else s.child }
  else s

/-- Child-side branch of `start` (lines 137-200), run in a forked child whose
descriptor table is a copy of the parent state `s` at the moment of the fork:
close `out_pipe_[1]` and `in_pipe_[0]`, `dup2` `out_pipe_[0]` onto standard
input and `in_pipe_[1]` onto standard output, closing the originals.  Each
step throws (the child dies) when its descriptor is not open. -/
def startChildBranch (s : PState) : Except String PState :=
  if s.outW = false then Except.error "[child] failed to close outpipe"
  else
  let s1 := { s with outW := false }
  if s1.inR = false then Except.error "[child] failed to close inpipe"
  else
  let s2 := { s1 with inR := false }
  if s2.outR = false then Except.error "[child] failed to map STDIN to parents outpipe"
  else
  let s3 := { s2 with outR := false }
  if s3.inW = false then Except.error "[child] failed to map STDOUT to parents inpipe"
  else
  Except.ok { s3 with inW := false }

/-- `is_alive` (lines 74-99): a non-blocking `waitpid(child_pid_, WNOHANG)`.
The syscall outcome is derived from the child's actual status: `0` while the
child runs (return `true`, state untouched); the child's pid when it is a
zombie (it gets reaped); `-1`/`ECHILD` when no child exists.  In the latter
two cases the handle resets `forked_ = false`, `child_pid_ = 0` and returns
`false`; the descriptors are left open (comment on line 92). -/
def is_alive (s : PState) : Bool × PState :=
  match s.child with
  | ChildStatus.running => (true, s)
  | ChildStatus.zombie =>
      (false, { s with forked := false, childPid := 0, child := ChildStatus.noChild })
  | ChildStatus.noChild =>
      (false, { s with forked := false, childPid := 0, child := ChildStatus.noChild })

/-- `kill_` (lines 42-72), called on `child_pid_`.  When `forked_` is false it
does nothing.  Otherwise `waitpid(pid, WNOHANG)` either reaps a zombie, or
reports `0` for a running child — in which case `kill(pid, SIGKILL)` is sent
followed by a blocking `wait(NULL)` — or reports that no child exists, which
is ignored.  The returned `Bool` records whether the SIGKILL-then-blocking-
wait path was taken.  No branch throws, and `forked_`/`child_pid_` are left
unchanged. -/
def kill_ (s : PState) : PState × Bool :=
  if s.forked then
    match s.child with
    | ChildStatus.running => ({ s with child := ChildStatus.noChild }, true)
    | ChildStatus.zombie  => ({ s with child := ChildStatus.noChild }, false)
    | ChildStatus.noChild => (s, false)
  else (s, false)

/-- Operations a controller (plus the environment) can perform on a handle:
call `start` with a given `fork` outcome, let the running child terminate,
call `is_alive`, or call `kill_`. -/
inductive Op
  | opStart (p : Int)
  | opChildExits
  | opIsAlive
  | opKill

/-- Whether an operation is a `start` call. -/
def Op.isStart : Op → Bool
  | Op.opStart _ => true
  | _ => false

/-- State transition of a single operation. -/
def applyOp (s : PState) : Op → PState
  | Op.opStart p => start p s
  | Op.opChildExits =>
      if s.child = ChildStatus.running then { s with child := ChildStatus.zombie } else s
  | Op.opIsAlive => (is_alive s).2
  | Op.opKill => (kill_ s).1

/-- Run a sequence of operations from a state. -/
def applyOps (s : PState) (ops : List Op) : PState :=
  ops.foldl applyOp s

/-- The character produced by `input[input.size()]` on a `std::string`: the
element at index `i` when in range, otherwise the terminating NUL character
(the behaviour C++11 guarantees for `operator[]` at index `size()`). -/
def stringIndex (s : String) (i : Nat) : Char :=
  if h : i < s.data.length then s.data.get ⟨i, h⟩ else Char.ofNat 0

/-- Lines 285-287 of `send_command`: the string actually handed to `write`,
after `if (input[input.size()] != '\n') input.append("\n");`. -/
def sentLine (input : String) : String :=
  if stringIndex input input.length ≠ '\n' then input ++ "\n" else input

/-- Observable result of `send_command`: the not-running throw, the write
throw, or success carrying the exact string passed to `write`. -/
inductive SendResult
  | notRunning
  | writeError
  | ok (sent : String)
deriving DecidableEq

/-- `send_command` (lines 280-292).  `writeRet` gives the return value of the
`write` syscall on the string it is handed; the code compares that value only
against `-1` (line 290). -/
def send_command (s : PState) (writeRet : String → Int) (input : String) :
    SendResult × PState :=
  let alive := is_alive s
  if alive.1 = false then (SendResult.notRunning, alive.2)
  else if writeRet (sentLine input) = -1 then (SendResult.writeError, alive.2)
  else (SendResult.ok (sentLine input), alive.2)

/-- One iteration of the `poll` loop in `read` (lines 220-274), as seen by the
parent: `poll` times out, `poll` fails, or the descriptor is readable and the
subsequent `::read` returns the given bytes (`[]` meaning a zero-byte read,
i.e. end of stream). -/
inductive PollEvent
  | timeout
  | pollErr
  | chunk (bytes : List Char)

/-- How a call to `read` ended.  `blocked` marks an event script that ran out
while the loop was still polling; `err` is the `poll() failed` throw;
`timedOut` is the `break` on `poll_ret == 0`; `closed` is the `return false`
on a zero-byte read; `matched` is the early `return true` on a line starting
with the expected string. -/
inductive ReadOutcome
  | blocked
  | err (msg : String)
  | timedOut (lines : List String)
  | closed (lines : List String)
  | matched (lines : List String)
deriving DecidableEq

/-- The `out_lines` vector a finished `read` call hands back. -/
def ReadOutcome.lines : ReadOutcome → List String
  | ReadOutcome.blocked => []
  | ReadOutcome.err _ => []
  | ReadOutcome.timedOut ls => ls
  | ReadOutcome.closed ls => ls
  | ReadOutcome.matched ls => ls

/-- The byte-scanning loop of `read` (lines 259-272): split the chunk on
newline characters, skipping empty completed lines, pushing completed lines
into `out_lines`, and returning early (`Sum.inr`) when `expected` is nonempty
and a completed line starts with it (`curr_line.rfind(expected, 0)`).
`Sum.inl` carries the partial line and accumulated lines to the next poll
iteration. -/
def procBytes (expected : String) :
    List Char → String → List String → (String × List String) ⊕ List String
  | [], curr, acc => Sum.inl (curr, acc)
  | c :: cs, curr, acc =>
    if c = '\n' then
      if curr == "" then procBytes expected cs curr acc
      else
        if expected != "" && expected.data.isPrefixOf curr.data then Sum.inr (acc ++ [curr])
        else procBytes expected cs "" (acc ++ [curr])
    else procBytes expected cs (curr.push c) acc

/-- The `for(;;)` poll loop of `read` (lines 220-274), driven by the script of
poll outcomes.  On timeout and on end of stream a nonempty partial line is
flushed as a final record. -/
def readLoop (expected : String) :
    List PollEvent → String → List String → ReadOutcome
  | [], _, _ => ReadOutcome.blocked
  | PollEvent.pollErr :: _, _, _ => ReadOutcome.err "poll() failed: "
  | PollEvent.timeout :: _, curr, acc =>
      ReadOutcome.timedOut (if curr == "" then acc else acc ++ [curr])
  | PollEvent.chunk [] :: _, curr, acc =>
      ReadOutcome.closed (if curr == "" then acc else acc ++ [curr])
  | PollEvent.chunk (c :: cs) :: rest, curr, acc =>
      match procBytes expected (c :: cs) curr acc with
      | Sum.inr acc2 => ReadOutcome.matched acc2
      | Sum.inl (curr2, acc2) => readLoop expected rest curr2 acc2

/-- `read` (lines 209-278): clears `out_lines`, starts with an empty partial
line, and runs the poll loop. -/
def read (expected : String) (events : List PollEvent) : ReadOutcome :=
  readLoop expected events "" []

/-- What the caller of `read` observes: the returned `bool` (line 277 returns
`expected.empty()` after a timeout, line 256 returns `false` at end of stream,
line 267 returns `true` on a match) together with `out_lines`.  `none` when
the call has not returned (still polling, or an exception propagates). -/
def observe (expected : String) : ReadOutcome → Option (Bool × List String)
  | ReadOutcome.blocked => none
  | ReadOutcome.err _ => none
  | ReadOutcome.timedOut ls => some ((expected == ""), ls)
  | ReadOutcome.closed ls => some (false, ls)
  | ReadOutcome.matched ls => some (true, ls)

/-- Accumulated-lines component of a `procBytes` result, whichever way the
scan ended. -/
def outAcc : (String × List String) ⊕ List String → List String
  | Sum.inl (_, a) => a
  | Sum.inr a => a

/-- The state of the `read` loop at the moment it stops without a match: the
pending partial line `curr_line` and the list of completed lines pushed so
far (so the `out_lines` the caller sees is that list, followed by the partial
line exactly when it is nonempty).  `none` when the loop is still polling,
threw, or returned early on a match.  This projects the same loop `readLoop`
runs; it separates the completed records from the final timeout/end-of-stream
flush. -/
def readLoopFinal (expected : String) :
    List PollEvent → String → List String → Option (String × List String)
  | [], _, _ => none
  | PollEvent.pollErr :: _, _, _ => none
  | PollEvent.timeout :: _, curr, acc => some (curr, acc)
  | PollEvent.chunk [] :: _, curr, acc => some (curr, acc)
  | PollEvent.chunk (c :: cs) :: rest, curr, acc =>
      match procBytes expected (c :: cs) curr acc with
      | Sum.inr _ => none
      | Sum.inl (curr2, acc2) => readLoopFinal expected rest curr2 acc2

/- ------------------------------------------------------------------ -/
/- Helper lemmas                                                       -/
/- ------------------------------------------------------------------ -/

theorem sentLine_eq (input : String) : sentLine input = input ++ "\n" := by
  have h0 : input.length = input.data.length := rfl
  have h1 : ¬ (input.length < input.data.length) := by omega
  rw [sentLine, stringIndex, dif_neg h1, if_pos]
  decide

theorem procBytes_no_empty (e : String) (cs : List Char) :
    ∀ (curr : String) (acc : List String), "" ∉ acc →
      "" ∉ outAcc (procBytes e cs curr acc) := by
  induction cs with
  | nil =>
      intro curr acc h
      simpa [procBytes, outAcc] using h
  | cons c cs ih =>
      intro curr acc h
      by_cases hc : c = '\n'
      · subst hc
        rw [procBytes]
        simp only [if_pos rfl]
        by_cases hcur : (curr == "") = true
        · rw [if_pos hcur]
          exact ih curr acc h
        · rw [if_neg hcur]
          have hne : curr ≠ "" := by
            intro hq; exact hcur (by simp [hq])
          have hacc : "" ∉ acc ++ [curr] := by
            intro hmem
            rcases List.mem_append.1 hmem with h1 | h1
            · exact h h1
            · exact hne (List.mem_singleton.1 h1).symm
          by_cases hm : (e != "" && e.data.isPrefixOf curr.data) = true
          · rw [if_pos hm]
            simpa [outAcc] using hacc
          · rw [if_neg hm]
            exact ih "" (acc ++ [curr]) hacc
      · rw [procBytes]
        rw [if_neg hc]
        exact ih (curr.push c) acc h

theorem readLoop_no_empty (e : String) (events : List PollEvent) :
    ∀ (curr : String) (acc : List String), "" ∉ acc →
      "" ∉ (readLoop e events curr acc).lines := by
  induction events with
  | nil =>
      intro curr acc h
      simp [readLoop, ReadOutcome.lines]
  | cons ev rest ih =>
      intro curr acc h
      cases ev with
      | pollErr => simp [readLoop, ReadOutcome.lines]
      | timeout =>
          rw [readLoop]
          by_cases hcur : (curr == "") = true
          · simpa [ReadOutcome.lines, hcur] using h
          · have hne : curr ≠ "" := by
              intro hq; exact hcur (by simp [hq])
            simp only [ReadOutcome.lines, if_neg hcur]
            intro hmem
            rcases List.mem_append.1 hmem with h1 | h1
            · exact h h1
            · exact hne (List.mem_singleton.1 h1).symm
      | chunk bytes =>
          cases bytes with
          | nil =>
              rw [readLoop]
              by_cases hcur : (curr == "") = true
              · simpa [ReadOutcome.lines, hcur] using h
              · have hne : curr ≠ "" := by
                  intro hq; exact hcur (by simp [hq])
                simp only [ReadOutcome.lines, if_neg hcur]
                intro hmem
                rcases List.mem_append.1 hmem with h1 | h1
                · exact h h1
                · exact hne (List.mem_singleton.1 h1).symm
          | cons c cs =>
              rw [readLoop]
              cases hpb : procBytes e (c :: cs) curr acc with
              | inl p =>
                  obtain ⟨curr2, acc2⟩ := p
                  have h2 : "" ∉ acc2 := by
                    have hmem := procBytes_no_empty e (c :: cs) curr acc h
                    rw [hpb] at hmem
                    simpa [outAcc] using hmem
                  simpa using ih curr2 acc2 h2
              | inr acc2 =>
                  have h2 : "" ∉ acc2 := by
                    have hmem := procBytes_no_empty e (c :: cs) curr acc h
                    rw [hpb] at hmem
                    simpa [outAcc] using hmem
                  simpa [ReadOutcome.lines] using h2

theorem procBytes_inl_inv (e : String) (he : e ≠ "") (cs : List Char) :
    ∀ (curr : String) (acc : List String), (∀ l ∈ acc, e.data.isPrefixOf l.data = false) →
      ∀ curr2 acc2, procBytes e cs curr acc = Sum.inl (curr2, acc2) →
        ∀ l ∈ acc2, e.data.isPrefixOf l.data = false := by
  induction cs with
  | nil =>
      intro curr acc h curr2 acc2 heq
      rw [procBytes] at heq
      injection heq with h1
      injection h1 with h2 h3
      subst h3
      exact h
  | cons c cs ih =>
      intro curr acc h curr2 acc2 heq
      by_cases hc : c = '\n'
      · subst hc
        rw [procBytes] at heq
        simp only [if_pos rfl] at heq
        by_cases hcur : (curr == "") = true
        · rw [if_pos hcur] at heq
          exact ih curr acc h curr2 acc2 heq
        · rw [if_neg hcur] at heq
          by_cases hm : (e != "" && e.data.isPrefixOf curr.data) = true
          · rw [if_pos hm] at heq
            exact Sum.noConfusion heq
          · rw [if_neg hm] at heq
            have hpx : e.data.isPrefixOf curr.data = false := by
              cases hp : e.data.isPrefixOf curr.data
              · rfl
              · exact absurd (by simp [hp, bne_iff_ne, he]) hm
            have hacc : ∀ l ∈ acc ++ [curr], e.data.isPrefixOf l.data = false := by
              intro l hl
              rcases List.mem_append.1 hl with h1 | h1
              · exact h l h1
              · rw [List.mem_singleton.1 h1]; exact hpx
            exact ih "" (acc ++ [curr]) hacc curr2 acc2 heq
      · rw [procBytes, if_neg hc] at heq
        exact ih (curr.push c) acc h curr2 acc2 heq

theorem procBytes_inr_inv (e : String) (he : e ≠ "") (cs : List Char) :
    ∀ (curr : String) (acc : List String), (∀ l ∈ acc, e.data.isPrefixOf l.data = false) →
      ∀ acc2, procBytes e cs curr acc = Sum.inr acc2 →
        (∃ l, acc2.getLast? = some l ∧ e.data.isPrefixOf l.data = true) ∧
        (∀ l ∈ acc2.dropLast, e.data.isPrefixOf l.data = false) := by
  induction cs with
  | nil =>
      intro curr acc h acc2 heq
      rw [procBytes] at heq
      exact Sum.noConfusion heq
  | cons c cs ih =>
      intro curr acc h acc2 heq
      by_cases hc : c = '\n'
      · subst hc
        rw [procBytes] at heq
        simp only [if_pos rfl] at heq
        by_cases hcur : (curr == "") = true
        · rw [if_pos hcur] at heq
          exact ih curr acc h acc2 heq
        · rw [if_neg hcur] at heq
          by_cases hm : (e != "" && e.data.isPrefixOf curr.data) = true
          · rw [if_pos hm] at heq
            injection heq with h1
            subst h1
            have hpx : e.data.isPrefixOf curr.data = true := by
              have hm2 := hm
              simp only [Bool.and_eq_true] at hm2
              exact hm2.2
            refine ⟨⟨curr, ?_, hpx⟩, ?_⟩
            · simp
            · intro l hl
              rw [List.dropLast_concat] at hl
              exact h l hl
          · rw [if_neg hm] at heq
            have hpx : e.data.isPrefixOf curr.data = false := by
              cases hp : e.data.isPrefixOf curr.data
              · rfl
              · exact absurd (by simp [hp, bne_iff_ne, he]) hm
            have hacc : ∀ l ∈ acc ++ [curr], e.data.isPrefixOf l.data = false := by
              intro l hl
              rcases List.mem_append.1 hl with h1 | h1
              · exact h l h1
              · rw [List.mem_singleton.1 h1]; exact hpx
            exact ih "" (acc ++ [curr]) hacc acc2 heq
      · rw [procBytes, if_neg hc] at heq
        exact ih (curr.push c) acc h acc2 heq

theorem readLoop_match_inv (e : String) (he : e ≠ "") (events : List PollEvent) :
    ∀ (curr : String) (acc : List String), (∀ l ∈ acc, e.data.isPrefixOf l.data = false) →
      (∀ ls, readLoop e events curr acc = ReadOutcome.matched ls →
          ∃ l, ls.getLast? = some l ∧ e.data.isPrefixOf l.data = true) ∧
      (∀ ls, readLoop e events curr acc = ReadOutcome.timedOut ls ∨
             readLoop e events curr acc = ReadOutcome.closed ls →
          ∀ l ∈ ls.dropLast, e.data.isPrefixOf l.data = false) := by
  induction events with
  | nil =>
      intro curr acc h
      constructor
      · intro ls heq; exact ReadOutcome.noConfusion heq
      · intro ls heq
        rcases heq with heq | heq <;> exact ReadOutcome.noConfusion heq
  | cons ev rest ih =>
      intro curr acc h
      cases ev with
      | pollErr =>
          constructor
          · intro ls heq; rw [readLoop] at heq; exact ReadOutcome.noConfusion heq
          · intro ls heq
            rcases heq with heq | heq <;> rw [readLoop] at heq <;>
              exact ReadOutcome.noConfusion heq
      | timeout =>
          constructor
          · intro ls heq; rw [readLoop] at heq; exact ReadOutcome.noConfusion heq
          · intro ls heq
            have hls : (if curr == "" then acc else acc ++ [curr]) = ls := by
              rcases heq with heq | heq <;> rw [readLoop] at heq
              · injection heq with h1
              · exact ReadOutcome.noConfusion heq
            rw [← hls]
            by_cases hcur : (curr == "") = true
            · rw [if_pos hcur]
              intro l hl
              exact h l (List.dropLast_sublist acc |>.subset hl)
            · rw [if_neg hcur, List.dropLast_concat]
              exact h
      | chunk bytes =>
          cases bytes with
          | nil =>
              constructor
              · intro ls heq; rw [readLoop] at heq; exact ReadOutcome.noConfusion heq
              · intro ls heq
                have hls : (if curr == "" then acc else acc ++ [curr]) = ls := by
                  rcases heq with heq | heq <;> rw [readLoop] at heq
                  · exact ReadOutcome.noConfusion heq
                  · injection heq with h1
                rw [← hls]
                by_cases hcur : (curr == "") = true
                · rw [if_pos hcur]
                  intro l hl
                  exact h l (List.dropLast_sublist acc |>.subset hl)
                · rw [if_neg hcur, List.dropLast_concat]
                  exact h
          | cons c cs =>
              cases hpb : procBytes e (c :: cs) curr acc with
              | inl p =>
                  obtain ⟨curr2, acc2⟩ := p
                  have h2 := procBytes_inl_inv e he (c :: cs) curr acc h curr2 acc2 hpb
                  constructor
                  · intro ls heq
                    rw [readLoop, hpb] at heq
                    exact (ih curr2 acc2 h2).1 ls heq
                  · intro ls heq
                    rw [readLoop, hpb] at heq
                    exact (ih curr2 acc2 h2).2 ls heq
              | inr acc2 =>
                  have h2 := procBytes_inr_inv e he (c :: cs) curr acc h acc2 hpb
                  constructor
                  · intro ls heq
                    rw [readLoop, hpb] at heq
                    injection heq with h1
                    subst h1
                    exact h2.1
                  · intro ls heq
                    rcases heq with heq | heq <;> rw [readLoop, hpb] at heq <;>
                      exact ReadOutcome.noConfusion heq

theorem readLoop_final_inv (e : String) (he : e ≠ "") (events : List PollEvent) :
    ∀ (curr : String) (acc : List String),
      (∀ l ∈ acc, e.data.isPrefixOf l.data = false) →
      ∀ ls, (readLoop e events curr acc = ReadOutcome.timedOut ls ∨
             readLoop e events curr acc = ReadOutcome.closed ls) →
        ∃ curr2 acc2, readLoopFinal e events curr acc = some (curr2, acc2) ∧
          ls = (if curr2 == "" then acc2 else acc2 ++ [curr2]) ∧
          (∀ l ∈ acc2, e.data.isPrefixOf l.data = false) := by
  induction events with
  | nil =>
      intro curr acc h ls heq
      rcases heq with heq | heq <;> exact ReadOutcome.noConfusion heq
  | cons ev rest ih =>
      intro curr acc h ls heq
      cases ev with
      | pollErr =>
          rcases heq with heq | heq <;> rw [readLoop] at heq <;>
            exact ReadOutcome.noConfusion heq
      | timeout =>
          have hls : (if curr == "" then acc else acc ++ [curr]) = ls := by
            rcases heq with heq | heq <;> rw [readLoop] at heq
            · injection heq
            · exact ReadOutcome.noConfusion heq
          exact ⟨curr, acc, rfl, hls.symm, h⟩
      | chunk bytes =>
          cases bytes with
          | nil =>
              have hls : (if curr == "" then acc else acc ++ [curr]) = ls := by
                rcases heq with heq | heq <;> rw [readLoop] at heq
                · exact ReadOutcome.noConfusion heq
                · injection heq
              exact ⟨curr, acc, rfl, hls.symm, h⟩
          | cons c cs =>
              cases hpb : procBytes e (c :: cs) curr acc with
              | inl p =>
                  obtain ⟨curr2, acc2⟩ := p
                  have h2 := procBytes_inl_inv e he (c :: cs) curr acc h curr2 acc2 hpb
                  rw [readLoop, hpb] at heq
                  have h3 := ih curr2 acc2 h2 ls heq
                  rw [readLoopFinal, hpb]
                  exact h3
              | inr acc2 =>
                  rcases heq with heq | heq <;> rw [readLoop, hpb] at heq <;>
                    exact ReadOutcome.noConfusion heq

theorem is_alive_false_iff (s : PState) :
    (is_alive s).1 = false ↔
      (s.child = ChildStatus.zombie ∨ s.child = ChildStatus.noChild) := by
  cases hc : s.child <;> simp [is_alive, hc]

theorem is_alive_snd_noChild (s : PState) (h : (is_alive s).1 = false) :
    (is_alive s).2.child = ChildStatus.noChild := by
  cases hc : s.child <;> simp [is_alive, hc] at h ⊢

theorem applyOp_noChild (s : PState) (op : Op) (h : s.child = ChildStatus.noChild)
    (hop : op.isStart = false) : (applyOp s op).child = ChildStatus.noChild := by
  cases op with
  | opStart p => simp [Op.isStart] at hop
  | opChildExits => simp [applyOp, h]
  | opIsAlive => simp [applyOp, is_alive, h]
  | opKill =>
      simp only [applyOp, kill_]
      split
      · rw [h]; exact h
      · exact h

theorem applyOps_noChild (s : PState) (ops : List Op) (h : s.child = ChildStatus.noChild)
    (hops : ∀ op ∈ ops, op.isStart = false) :
    (applyOps s ops).child = ChildStatus.noChild := by
  induction ops generalizing s with
  | nil => simpa [applyOps] using h
  | cons op rest ih =>
      have h1 := applyOp_noChild s op h (hops op (by simp))
      have h2 : ∀ o ∈ rest, o.isStart = false := fun o ho => hops o (by simp [ho])
      simpa [applyOps] using ih (applyOp s op) h1 h2

theorem kill_fst_noChild (s : PState) (h : s.forked = true) :
    (kill_ s).1.child = ChildStatus.noChild := by
  cases hc : s.child <;> simp [kill_, h, hc]

/- ------------------------------------------------------------------ -/
/- C1                                                                  -/
/- ------------------------------------------------------------------ -/

/-- C1: the claim says a failed `fork` leaves the handle `Unstarted` with
`pid = 0` and no child tracked.  The code tests `if (process_p)`, which is
true for the failure value `-1`: it takes the parent branch, closes
`out_pipe_[0]` and `in_pipe_[1]`, sets `child_pid_ = -1` and `forked_ = true`
— the handle is corrupted, not left unchanged, and no `SpawnError` exists. -/
theorem start_fork_failure_treated_as_parent :
    (start (-1) initState).forked = true ∧
    (start (-1) initState).childPid = -1 ∧
    (start (-1) initState).outR = false ∧
    (start (-1) initState).inW = false ∧
    (start (-1) initState).child = ChildStatus.noChild ∧
    start (-1) initState ≠ initState := by
  decide

/- ------------------------------------------------------------------ -/
/- C2                                                                  -/
/- ------------------------------------------------------------------ -/

/-- C2: the claim says a line already ending in a newline is written
unchanged.  In the code `input[input.size()]` reads the terminating NUL, never
the last character, so the guard is always true and a newline is appended
unconditionally: `"go\n"` is sent as `"go\n\n"`. -/
theorem send_command_always_appends_newline :
    (∀ input : String, sentLine input = input ++ "\n") ∧
    sentLine "go\n" = "go\n\n" ∧
    sentLine "go\n" ≠ "go\n" ∧
    (send_command (start 7 initState) (fun _ => 3) "go\n").1 = SendResult.ok "go\n\n" := by
  refine ⟨sentLine_eq, by decide, by decide, by decide⟩

/- ------------------------------------------------------------------ -/
/- C3                                                                  -/
/- ------------------------------------------------------------------ -/

/-- C3 counterexample: a short write is not reported.  Sending `"go"` to a
live child turns it into the 3-byte line `"go\n"`; when the `write` syscall
reports only 1 byte written, the call still succeeds — `WriteError` is only
raised on a return value of `-1`. -/
theorem short_write_not_detected :
    (send_command (start 7 initState) (fun _ => 1) "go").1 = SendResult.ok "go\n" ∧
    (sentLine "go").length = 3 ∧
    ((1 : Int) < 3) ∧
    (send_command (start 7 initState) (fun _ => 1) "go").1 ≠ SendResult.writeError := by
  decide

/-- C3 amended: on a live child the full line (newline included) is handed to
a single `write` call, and `WriteError` is raised exactly when that call
returns `-1`; any other return value — including a short count — is accepted
as success with no retry. -/
theorem send_command_write_check (s : PState) (w : String → Int) (input : String)
    (h : s.child = ChildStatus.running) :
    (send_command s w input).1 =
      if w (sentLine input) = -1 then SendResult.writeError
      else SendResult.ok (sentLine input) := by
  simp only [send_command, is_alive, h]
  rw [if_neg (by simp)]
  split <;> rfl

/-- Witness for `send_command_write_check` at a concrete live handle. -/
theorem send_command_write_check_witness :
    (send_command (start 7 initState) (fun _ => (-1 : Int)) "go").1 =
      if (fun _ : String => (-1 : Int)) (sentLine "go") = -1 then SendResult.writeError
      else SendResult.ok (sentLine "go") :=
  send_command_write_check (start 7 initState) (fun _ => (-1 : Int)) "go" (by decide)

/- ------------------------------------------------------------------ -/
/- C4                                                                  -/
/- ------------------------------------------------------------------ -/

/-- C4: the claim (and the comment on line 92) says a handle whose child was
observed `Exited` can be restarted reusing the same channel pairs.  But the
first `start` already closed the parent's `out_pipe_[0]` and `in_pipe_[1]`,
so the child forked by the second `start` inherits a table without them and
its `dup2(out_pipe_[0], STDIN_FILENO)` fails: the restarted child throws
instead of reaching `execv`.  The first start's child branch, by contrast,
succeeds on the freshly constructed state. -/
theorem restart_child_setup_fails :
    (∃ s, startChildBranch initState = Except.ok s) ∧
    startChildBranch (applyOps initState [Op.opStart 7, Op.opChildExits, Op.opIsAlive])
      = Except.error "[child] failed to map STDIN to parents outpipe" := by
  exact ⟨⟨_, rfl⟩, rfl⟩

/- ------------------------------------------------------------------ -/
/- C5                                                                  -/
/- ------------------------------------------------------------------ -/

/-- C5: a zero or negative timeout is normalized to the single fixed maximum
bound `MAX_TIMEOUT_MS = 1000*60*5` milliseconds (5 minutes), and a positive
timeout is kept as is. -/
theorem timeout_normalization :
    (∀ t : Int, t ≤ 0 → normalizeTimeout t = MAX_TIMEOUT_MS) ∧
    (∀ t : Int, 0 < t → normalizeTimeout t = t) ∧
    MAX_TIMEOUT_MS = 300000 := by
  refine ⟨fun t ht => ?_, fun t ht => ?_, by decide⟩
  · rw [normalizeTimeout, if_pos ht]
  · rw [normalizeTimeout, if_neg (by omega)]

/-- Witness for `timeout_normalization` at concrete timeouts. -/
theorem timeout_normalization_witness :
    normalizeTimeout 0 = MAX_TIMEOUT_MS ∧ normalizeTimeout 250 = 250 :=
  ⟨timeout_normalization.1 0 (by decide), timeout_normalization.2.1 250 (by decide)⟩

/- ------------------------------------------------------------------ -/
/- C10                                                                 -/
/- ------------------------------------------------------------------ -/

/-- C10: the line sequence returned by `read` never contains an empty string —
an empty completed line (two consecutive newlines) is skipped (line 261), and
the timeout/end-of-stream flushes are guarded by non-emptiness.  Concretely,
the byte stream `"a\n\nb\n"` yields exactly `["a", "b"]`. -/
theorem read_no_empty_lines :
    (∀ (e : String) (events : List PollEvent), "" ∉ (read e events).lines) ∧
    (read "" [PollEvent.chunk ['a', '\n', '\n', 'b', '\n'], PollEvent.timeout]).lines
      = ["a", "b"] := by
  constructor
  · intro e events
    exact readLoop_no_empty e events "" [] (by simp)
  · decide

/-- Witness for `read_no_empty_lines` at a concrete stream. -/
theorem read_no_empty_lines_witness :
    "" ∉ (read "" [PollEvent.chunk ['a', '\n', '\n'], PollEvent.timeout]).lines :=
  read_no_empty_lines.1 "" [PollEvent.chunk ['a', '\n', '\n'], PollEvent.timeout]

/- ------------------------------------------------------------------ -/
/- C6                                                                  -/
/- ------------------------------------------------------------------ -/

/-- C6: when the poll wait times out while a nonempty partial line is
accumulated, that partial content is appended as the final record of
`out_lines`, and the call returns (an observable result, not an exception) —
with return value `expected.empty()` as on line 277. -/
theorem timeout_partial_flush (expected curr : String) (acc : List String)
    (rest : List PollEvent) (h : curr ≠ "") :
    readLoop expected (PollEvent.timeout :: rest) curr acc
      = ReadOutcome.timedOut (acc ++ [curr]) ∧
    observe expected (readLoop expected (PollEvent.timeout :: rest) curr acc)
      = some ((expected == ""), acc ++ [curr]) := by
  have hb : (curr == "") = false := by
    cases hq : curr == ""
    · rfl
    · exact absurd (by simpa using hq) h
  constructor
  · rw [readLoop, if_neg (by simp [hb])]
  · rw [readLoop, if_neg (by simp [hb]), observe]

/-- Witness for `timeout_partial_flush` on a concrete partial line. -/
theorem timeout_partial_flush_witness :
    readLoop "" [PollEvent.timeout] "ab" ["x"] = ReadOutcome.timedOut ["x", "ab"] ∧
    observe "" (readLoop "" [PollEvent.timeout] "ab" ["x"])
      = some ((("" : String) == ""), ["x", "ab"]) :=
  timeout_partial_flush "" "ab" ["x"] [] (by decide)

/- ------------------------------------------------------------------ -/
/- C7                                                                  -/
/- ------------------------------------------------------------------ -/

/-- C7 counterexample: with a target substring (`expected = "go"`), a run that
times out immediately and a run whose channel closes immediately both return
`false` with the same empty line list — the caller cannot distinguish
"timed out" from "channel closed", contradicting the claim's "always
distinguish". -/
theorem timeout_vs_closed_same_observation :
    observe "go" (read "go" [PollEvent.timeout]) = some (false, []) ∧
    observe "go" (read "go" [PollEvent.chunk []]) = some (false, []) ∧
    read "go" [PollEvent.timeout] = ReadOutcome.timedOut [] ∧
    read "go" [PollEvent.chunk []] = ReadOutcome.closed [] := by
  refine ⟨rfl, rfl, rfl, rfl⟩

/-- C7 amended: end of stream flushes a nonempty pending partial line and
stops the call; with no target substring the return value distinguishes
timeout (`true`) from closure (`false`); in target mode a match returns `true`
with the matching completed line (which starts with the target) as the last
record, while both timeout and closure return `false` — indistinguishable
from one another — and every such `false` return decomposes as the run's
completed lines, none of which starts with the target, followed by the
flushed pending partial line exactly when that partial is nonempty: so the
result is `true` exactly when some completed line starts with the target,
and on a `false` return no record except possibly the final flushed partial
line starts with it. -/
theorem read_eof_and_match_semantics :
    (∀ (e curr : String) (acc : List String) (rest : List PollEvent), curr ≠ "" →
        readLoop e (PollEvent.chunk [] :: rest) curr acc
          = ReadOutcome.closed (acc ++ [curr])) ∧
    (∀ ls ls' : List String,
        observe "" (ReadOutcome.timedOut ls) = some (true, ls) ∧
        observe "" (ReadOutcome.closed ls') = some (false, ls')) ∧
    (∀ (e : String) (events : List PollEvent) (ls : List String), e ≠ "" →
        read e events = ReadOutcome.matched ls →
        observe e (read e events) = some (true, ls) ∧
        ∃ l, ls.getLast? = some l ∧ e.data.isPrefixOf l.data = true) ∧
    (∀ (e : String) (events : List PollEvent) (ls : List String), e ≠ "" →
        (read e events = ReadOutcome.timedOut ls ∨
         read e events = ReadOutcome.closed ls) →
        observe e (read e events) = some (false, ls) ∧
        ∃ curr2 acc2, readLoopFinal e events "" [] = some (curr2, acc2) ∧
          ls = (if curr2 == "" then acc2 else acc2 ++ [curr2]) ∧
          (∀ l ∈ acc2, e.data.isPrefixOf l.data = false)) := by
  refine ⟨?_, ?_, ?_, ?_⟩
  · intro e curr acc rest h
    have hb : (curr == "") = false := by
      cases hq : curr == ""
      · rfl
      · exact absurd (by simpa using hq) h
    rw [readLoop, if_neg (by simp [hb])]
  · intro ls ls'
    exact ⟨rfl, rfl⟩
  · intro e events ls he heq
    have hbe : (e == "") = false := by
      cases hq : e == ""
      · rfl
      · exact absurd (by simpa using hq) he
    constructor
    · rw [heq, observe]
    · exact (readLoop_match_inv e he events "" [] (by simp)).1 ls heq
  · intro e events ls he heq
    have hbe : (e == "") = false := by
      cases hq : e == ""
      · rfl
      · exact absurd (by simpa using hq) he
    constructor
    · rcases heq with heq | heq
      · rw [heq, observe, hbe]
      · rw [heq, observe]
    · exact readLoop_final_inv e he events "" [] (by simp) ls heq

/-- Witness for `read_eof_and_match_semantics` on concrete runs: an
end-of-stream flush, a matching run, and a non-matching run that times out
with its only record a completed line not starting with the target. -/
theorem read_eof_and_match_semantics_witness :
    readLoop "x" [PollEvent.chunk []] "ab" [] = ReadOutcome.closed ["ab"] ∧
    (observe "go" (read "go" [PollEvent.chunk ['g', 'o', '\n']]) = some (true, ["go"]) ∧
     ∃ l, (["go"] : List String).getLast? = some l ∧ "go".data.isPrefixOf l.data = true) ∧
    (observe "go" (read "go" [PollEvent.chunk ['a', '\n'], PollEvent.timeout])
        = some (false, ["a"]) ∧
     ∃ curr2 acc2,
       readLoopFinal "go" [PollEvent.chunk ['a', '\n'], PollEvent.timeout] "" []
         = some (curr2, acc2) ∧
       (["a"] : List String) = (if curr2 == "" then acc2 else acc2 ++ [curr2]) ∧
       (∀ l ∈ acc2, "go".data.isPrefixOf l.data = false)) :=
  ⟨read_eof_and_match_semantics.1 "x" "ab" [] [] (by decide),
   read_eof_and_match_semantics.2.2.1 "go" [PollEvent.chunk ['g', 'o', '\n']] ["go"]
     (by decide) (by decide),
   read_eof_and_match_semantics.2.2.2 "go" [PollEvent.chunk ['a', '\n'], PollEvent.timeout]
     ["a"] (by decide) (Or.inl (by decide))⟩

/- ------------------------------------------------------------------ -/
/- C8                                                                  -/
/- ------------------------------------------------------------------ -/

/-- C8: `is_alive` returns `false` exactly when the child has terminated
(zombie, reaped on the spot) or no child is tracked; and once a call to
`is_alive` — or a `kill_` on a forked handle — has observed termination,
every later `is_alive` returns `false` under any sequence of operations that
contains no new `start`. -/
theorem is_alive_liveness_consistency :
    (∀ s : PState, (is_alive s).1 = false ↔
        (s.child = ChildStatus.zombie ∨ s.child = ChildStatus.noChild)) ∧
    (∀ (s : PState) (ops : List Op), (is_alive s).1 = false →
        (∀ op ∈ ops, op.isStart = false) →
        (is_alive (applyOps (is_alive s).2 ops)).1 = false) ∧
    (∀ (s : PState) (ops : List Op), s.forked = true →
        (∀ op ∈ ops, op.isStart = false) →
        (is_alive (applyOps (kill_ s).1 ops)).1 = false) := by
  refine ⟨is_alive_false_iff, ?_, ?_⟩
  · intro s ops h hops
    have h1 : (applyOps (is_alive s).2 ops).child = ChildStatus.noChild :=
      applyOps_noChild (is_alive s).2 ops (is_alive_snd_noChild s h) hops
    rw [(is_alive_false_iff (applyOps (is_alive s).2 ops)).2 (Or.inr h1)]
  · intro s ops h hops
    have h1 : (applyOps (kill_ s).1 ops).child = ChildStatus.noChild :=
      applyOps_noChild (kill_ s).1 ops (kill_fst_noChild s h) hops
    rw [(is_alive_false_iff (applyOps (kill_ s).1 ops)).2 (Or.inr h1)]

/-- Witness for `is_alive_liveness_consistency`: start a child, let it exit,
observe the exit via `is_alive`, then run `kill_` and another `is_alive` —
the final `is_alive` still reports `false`. -/
theorem is_alive_liveness_consistency_witness :
    (is_alive (applyOps (is_alive (applyOps initState [Op.opStart 5, Op.opChildExits])).2
        [Op.opKill, Op.opIsAlive])).1 = false :=
  is_alive_liveness_consistency.2.1 (applyOps initState [Op.opStart 5, Op.opChildExits])
    [Op.opKill, Op.opIsAlive] (by decide) (by decide)

/- ------------------------------------------------------------------ -/
/- C9                                                                  -/
/- ------------------------------------------------------------------ -/

/-- C9: `kill_` is a total function on handle states — never started, already
exited, already killed, still running — with no error outcome, a second
invocation changes nothing and sends no signal (idempotence), a never-started
handle (`forked_ = false`) is left untouched, and on a running child it takes
the SIGKILL-plus-blocking-wait path, after which no child remains. -/
theorem kill_idempotent_and_safe :
    (∀ s : PState, kill_ (kill_ s).1 = ((kill_ s).1, false)) ∧
    (∀ s : PState, s.forked = true → s.child = ChildStatus.running →
        (kill_ s).2 = true ∧ (kill_ s).1.child = ChildStatus.noChild) ∧
    (∀ s : PState, s.forked = false → kill_ s = (s, false)) := by
  refine ⟨?_, ?_, ?_⟩
  · intro s
    cases hf : s.forked <;> cases hc : s.child <;> simp [kill_, hf, hc]
  · intro s hf hc
    simp [kill_, hf, hc]
  · intro s hf
    simp [kill_, hf]

/-- Witness for `kill_idempotent_and_safe`: a freshly started handle is
SIGKILLed and reaped; a never-started handle is untouched. -/
theorem kill_idempotent_and_safe_witness :
    ((kill_ (start 7 initState)).2 = true ∧
      (kill_ (start 7 initState)).1.child = ChildStatus.noChild) ∧
    kill_ initState = (initState, false) :=
  ⟨kill_idempotent_and_safe.2.1 (start 7 initState) (by decide) (by decide),
   kill_idempotent_and_safe.2.2 initState (by decide)⟩
